import Mathlib

set_option maxRecDepth 16384

/-!
# Verification of the workmate log analyzer core

A shallow embedding of `src/log_analyzer.py`, together with theorems settling
the frozen claims about it.  Python strings are modelled as Lean `String` /
`List Char` (ASCII fragment: Python's `\d` also matches non-ASCII Unicode
decimal digits, which are outside the scope of this model), Python floats as
`ℚ`, Python exceptions as an explicit error type threaded through `Except`.
-/

namespace Workmate

/-! ## Python exception classes

The per-line `except (json.JSONDecodeError, KeyError, ValueError)` clause in
`LogAnalyzer.load_log_file` catches only the first three constructors below;
`TypeError` and `AttributeError` propagate out of the loop.  `IOError` is
caught by the outer handler and re-raised as a generic `Exception`. -/

inductive PyErr where
  | jsonDecodeError : PyErr
  | keyError : String → PyErr
  | valueError : String → PyErr
  | typeError : String → PyErr
  | attributeError : String → PyErr
  | ioError : String → PyErr
  | exception : String → PyErr
deriving DecidableEq

/-! ## Datetime model

Python `datetime.datetime` restricted to what the analyzer uses: calendar
fields, time-of-day fields, microseconds, and an optional fixed UTC offset in
minutes (`none` = naive datetime, `some 0` = UTC-aware). -/

structure Datetime where
  year : ℕ
  month : ℕ
  day : ℕ
  hour : ℕ
  minute : ℕ
  second : ℕ
  microsecond : ℕ
  offsetMinutes : Option ℤ
deriving DecidableEq

/-- Python `datetime.date()`: the calendar-date portion. -/
def Datetime.date (d : Datetime) : ℕ × ℕ × ℕ := (d.year, d.month, d.day)

def digitVal (c : Char) : ℕ := c.toNat - 48

/-- Read exactly `n` ASCII digits, returning their value and the rest. -/
def readDigitsExact : ℕ → ℕ → List Char → Option (ℕ × List Char)
  | 0, acc, cs => some (acc, cs)
  | n + 1, acc, c :: cs =>
      if c.isDigit then readDigitsExact n (acc * 10 + digitVal c) cs else none
  | _ + 1, _, [] => none

/-- Greedily read up to `fuel` ASCII digits; returns (howMany, value, rest). -/
def readDigitsGreedy : ℕ → ℕ → ℕ → List Char → ℕ × ℕ × List Char
  | 0, n, acc, cs => (n, acc, cs)
  | _ + 1, n, acc, [] => (n, acc, [])
  | fuel + 1, n, acc, c :: cs =>
      if c.isDigit then readDigitsGreedy fuel (n + 1) (acc * 10 + digitVal c) cs
      else (n, acc, c :: cs)

def expectChar (c : Char) : List Char → Option (List Char)
  | d :: t => if d = c then some t else none
  | [] => none

def isLeapYear (y : ℕ) : Bool := y % 4 == 0 && (y % 100 != 0 || y % 400 == 0)

def daysInMonth (y m : ℕ) : ℕ :=
  if m = 2 then (if isLeapYear y then 29 else 28)
  else if m = 4 ∨ m = 6 ∨ m = 9 ∨ m = 11 then 30
  else 31

/-- Parse `YYYY-MM-DD` with calendar validation (as `datetime` enforces). -/
def parseDateCs (cs : List Char) : Option ((ℕ × ℕ × ℕ) × List Char) := do
  let (y, cs) ← readDigitsExact 4 0 cs
  let cs ← expectChar '-' cs
  let (mo, cs) ← readDigitsExact 2 0 cs
  let cs ← expectChar '-' cs
  let (d, cs) ← readDigitsExact 2 0 cs
  if 1 ≤ mo ∧ mo ≤ 12 ∧ 1 ≤ d ∧ d ≤ daysInMonth y mo then some ((y, mo, d), cs)
  else none

/-- Fractional seconds: `.` already consumed; 1–6 digits, scaled to µs. -/
def parseFracCs (cs : List Char) : Option (ℕ × List Char) :=
  match readDigitsGreedy 6 0 0 cs with
  | (n, acc, rest) =>
    if n = 0 then none
    else match rest with
      | c :: _ => if c.isDigit then none else some (acc * 10 ^ (6 - n), rest)
      | [] => some (acc * 10 ^ (6 - n), [])

/-- Parse `HH[:MM[:SS[.ffffff]]]` with range validation. -/
def parseTimeCs (cs : List Char) : Option ((ℕ × ℕ × ℕ × ℕ) × List Char) := do
  let (h, cs) ← readDigitsExact 2 0 cs
  if h ≥ 24 then none else
  match expectChar ':' cs with
  | none => some ((h, 0, 0, 0), cs)
  | some cs => do
    let (mi, cs) ← readDigitsExact 2 0 cs
    if mi ≥ 60 then none else
    match expectChar ':' cs with
    | none => some ((h, mi, 0, 0), cs)
    | some cs => do
      let (se, cs) ← readDigitsExact 2 0 cs
      if se ≥ 60 then none else
      match cs with
      | '.' :: cs => do
        let (us, cs) ← parseFracCs cs
        some ((h, mi, se, us), cs)
      | _ => some ((h, mi, se, 0), cs)

/-- Parse a UTC offset `±HH:MM` (must be < 24 h), in minutes east. -/
def parseOffsetCs (cs : List Char) : Option (ℤ × List Char) := do
  let (sign, cs) ←
    match cs with
    | '+' :: t => some ((1 : ℤ), t)
    | '-' :: t => some ((-1 : ℤ), t)
    | _ => none
  let (hh, cs) ← readDigitsExact 2 0 cs
  let cs ← expectChar ':' cs
  let (mm, cs) ← readDigitsExact 2 0 cs
  if hh ≤ 23 ∧ mm ≤ 59 then some (sign * (hh * 60 + mm), cs) else none

/-- Python `datetime.fromisoformat`, modelled on the format
`YYYY-MM-DD[THH[:MM[:SS[.f{1,6}]]][±HH:MM]]` (the separator is fixed to `T`,
which is the only separator the analyzer's inputs use). -/
def fromisoCs (cs : List Char) : Option Datetime := do
  let ((y, mo, d), cs) ← parseDateCs cs
  match cs with
  | [] => some ⟨y, mo, d, 0, 0, 0, 0, none⟩
  | 'T' :: cs => do
    let ((h, mi, se, us), cs) ← parseTimeCs cs
    match cs with
    | [] => some ⟨y, mo, d, h, mi, se, us, none⟩
    | _ => do
      let (off, cs) ← parseOffsetCs cs
      match cs with
      | [] => some ⟨y, mo, d, h, mi, se, us, some off⟩
      | _ => none
  | _ => none

def fromisoformat (s : String) : Option Datetime := fromisoCs s.data

/-- Python `datetime.strptime(s, "%Y-%m-%dT%H:%M:%S")`: strict second-precision
parse (numeric fields may be 1–2 digits, the year 1–4, per `strptime`),
producing a naive datetime. -/
def strptimeYmdTHMS (cs : List Char) : Option Datetime := do
  let (ny, y, cs) := readDigitsGreedy 4 0 0 cs
  if ny = 0 then none else do
  let cs ← expectChar '-' cs
  let (nmo, mo, cs) := readDigitsGreedy 2 0 0 cs
  if nmo = 0 then none else do
  let cs ← expectChar '-' cs
  let (nd, d, cs) := readDigitsGreedy 2 0 0 cs
  if nd = 0 then none else do
  let cs ← expectChar 'T' cs
  let (nh, h, cs) := readDigitsGreedy 2 0 0 cs
  if nh = 0 then none else do
  let cs ← expectChar ':' cs
  let (nmi, mi, cs) := readDigitsGreedy 2 0 0 cs
  if nmi = 0 then none else do
  let cs ← expectChar ':' cs
  let (nse, se, cs) := readDigitsGreedy 2 0 0 cs
  if nse = 0 then none else
  if cs = [] ∧ 1 ≤ mo ∧ mo ≤ 12 ∧ 1 ≤ d ∧ d ≤ daysInMonth y mo ∧
      h ≤ 23 ∧ mi ≤ 59 ∧ se ≤ 59 then
    some ⟨y, mo, d, h, mi, se, 0, none⟩
  else none

/-- `['+','0','0',':','0','0']`, the suffix tested on line 22 of the source. -/
def plus0000 : List Char := ['+', '0', '0', ':', '0', '0']

/-- Python `str.endswith` for a fixed 6-char suffix. -/
def endsWithPlus0000 (cs : List Char) : Bool :=
  6 ≤ cs.length && cs.drop (cs.length - 6) == plus0000

/-- Python `str.replace(c, rep)` for a single-character pattern. -/
def replaceChar (c : Char) (rep : List Char) (cs : List Char) : List Char :=
  cs.flatMap (fun d => if d = c then rep else [d])

/-- Tail-marker normalization, lines 22–25 of `_parse_timestamp`:
`+00:00` suffix becomes `Z`; otherwise a string containing `+` is truncated at
the first `+` and `Z` is appended. -/
def normalizeTs (cs : List Char) : List Char :=
  if endsWithPlus0000 cs then cs.take (cs.length - 6) ++ ['Z']
  else if cs.contains '+' then cs.takeWhile (· ≠ '+') ++ ['Z']
  else cs

/-- Lines 27–31 of `_parse_timestamp`: try
`datetime.fromisoformat(s.replace('Z', '+00:00'))`, falling back on failure to
`datetime.strptime(s.replace('Z', ''), '%Y-%m-%dT%H:%M:%S')`. -/
def parseCoreTs (cs : List Char) : Except PyErr Datetime :=
  match fromisoCs (replaceChar 'Z' plus0000 cs) with
  | some dt => .ok dt
  | none =>
    match strptimeYmdTHMS (cs.filter (fun c => c ≠ 'Z')) with
    | some dt => .ok dt
    | none => .error (.valueError "time data does not match format")

/-- `LogEntry._parse_timestamp` (lines 21–31 of the source). -/
def parseTimestamp (s : String) : Except PyErr Datetime :=
  parseCoreTs (normalizeTs s.data)

/-! ## Endpoint canonicalization (`LogEntry.get_endpoint`, lines 33–43) -/

/-- `url.split('?')[0]`: drop the query string. -/
def stripQuery (cs : List Char) : List Char := cs.takeWhile (· ≠ '?')

/-- Lines 37–38: drop a single trailing `/` when the path is longer than 1. -/
def dropTrailingSlash (cs : List Char) : List Char :=
  if cs.getLast? = some '/' ∧ 1 < cs.length then cs.dropLast else cs

def headIsDigit : List Char → Bool
  | [] => false
  | c :: _ => c.isDigit

/-- One-pass reading of `re.sub(r'/\d+', '/...', s)` (ASCII digits): the flag
records whether we are inside a digit run that has already been replaced. -/
def reSubGo : Bool → List Char → List Char
  | _, [] => []
  | inRun, c :: t =>
    if inRun && c.isDigit then reSubGo true t
    else if c == '/' && headIsDigit t then '/' :: '.' :: '.' :: '.' :: reSubGo true t
    else c :: reSubGo false t

/-- `re.sub(r'/\d+', '/...', s)`: replace every maximal digit run immediately
preceded by `/` with `/...`. -/
def reSubSlashDigits (cs : List Char) : List Char := reSubGo false cs

/-- The canonical endpoint of a raw url string (body of `get_endpoint`). -/
def canonicalOfUrl (s : String) : String :=
  ⟨reSubSlashDigits (dropTrailingSlash (stripQuery s.data))⟩

/-! ## Record model (`LogEntry`)

Field types follow the source's annotations (`timestamp: str` parsed to a
datetime, `status: int`, `url: str`, `request_method: str`,
`response_time: float`, `http_user_agent: str`). -/

structure LogEntry where
  timestamp : Datetime
  status : ℤ
  url : String
  request_method : String
  response_time : ℚ
  http_user_agent : String
deriving DecidableEq

/-- `LogEntry.__init__`: parses the textual timestamp (which aborts record
construction on failure), stores the remaining fields unchanged. -/
def LogEntry.make (timestamp : String) (status : ℤ) (url : String)
    (request_method : String) (response_time : ℚ) (http_user_agent : String) :
    Except PyErr LogEntry := do
  let ts ← parseTimestamp timestamp
  .ok ⟨ts, status, url, request_method, response_time, http_user_agent⟩

/-- `LogEntry.get_endpoint` (lines 33–43). -/
def get_endpoint (e : LogEntry) : String := canonicalOfUrl e.url

/-! ## JSON values and Python coercions

`json.loads` itself is the standard library (an external collaborator); its
possible results are modelled by `Json`, and the parser itself is a parameter
of the ingestion functions. -/

inductive Json where
  | null : Json
  | bool : Bool → Json
  | int : ℤ → Json
  | float : ℚ → Json
  | str : String → Json
  | arr : List Json → Json
  | obj : List (String × Json) → Json

/-- Python `int(x)` on a JSON-decoded value: numbers truncate toward zero,
numeric strings parse, `bool` maps to 0/1; `None`, lists and dicts raise
`TypeError` (which the per-line handler does NOT catch). -/
def pyInt : Json → Except PyErr ℤ
  | .int n => .ok n
  | .bool b => .ok (if b then 1 else 0)
  | .float q => .ok (Rat.floor q |> fun z => if q < 0 ∧ ¬q.den = 1 then z + 1 else z)
  | .str s =>
    match s.toInt? with
    | some n => .ok n
    | none => .error (.valueError "invalid literal for int")
  | _ => .error (.typeError "int() argument must be a string or a real number")

/-- Decimal string to rational, for Python `float("…")`. -/
def decStrToRat (cs : List Char) : Option ℚ :=
  match cs with
  | '-' :: rest =>
    (match decStrToRat rest with
     | some q => some (-q)
     | none => none)
  | _ =>
    match readDigitsGreedy cs.length 0 0 cs with
    | (n, intPart, rest) =>
      if n = 0 then none
      else match rest with
        | [] => some (intPart : ℚ)
        | '.' :: frac =>
          match readDigitsGreedy frac.length 0 0 frac with
          | (m, fracVal, rest2) =>
            if rest2 = [] then some ((intPart : ℚ) + (fracVal : ℚ) / (10 ^ m : ℕ))
            else none
        | _ => none

/-- Python `float(x)` on a JSON-decoded value. -/
def pyFloat : Json → Except PyErr ℚ
  | .float q => .ok q
  | .int n => .ok (n : ℚ)
  | .bool b => .ok (if b then 1 else 0)
  | .str s =>
    match decStrToRat s.data with
    | some q => .ok q
    | none => .error (.valueError "could not convert string to float")
  | _ => .error (.typeError "float() argument must be a string or a real number")

def strIsSubstr (pat : List Char) : List Char → Bool
  | [] => pat = []
  | c :: t => pat.isPrefixOf (c :: t) || strIsSubstr pat t

/-- Python `field in log_data` (line 120): key test for dicts, substring test
for strings, membership for lists; `TypeError` on non-iterables. -/
def pyContains (j : Json) (f : String) : Except PyErr Bool :=
  match j with
  | .obj kvs => .ok (kvs.any (fun p => p.1 == f))
  | .str s => .ok (strIsSubstr f.data s.data)
  | .arr xs => .ok (xs.any (fun x => match x with | .str t => t == f | _ => false))
  | _ => .error (.typeError "argument is not iterable")

/-- Python `log_data[field]` as used on lines 124–129. -/
def pyGetItem (j : Json) (f : String) : Except PyErr Json :=
  match j with
  | .obj kvs =>
    match kvs.find? (fun p => p.1 == f) with
    | some p => .ok p.2
    | none => .error (.keyError f)
  | .str _ => .error (.typeError "string indices must be integers")
  | .arr _ => .error (.typeError "list indices must be integers")
  | _ => .error (.typeError "not subscriptable")

/-- A JSON value passed where the source's annotations require `str`
(`url`, `request_method`, `http_user_agent`).  The Python code would store a
non-string unchanged and only fail later inside report generation; the model
front-loads that failure as a `TypeError` at construction.  No claim exercises
non-string values for these fields. -/
def asStr : Json → Except PyErr String
  | .str s => .ok s
  | _ => .error (.typeError "expected str")

/-- The `@timestamp` value: `_parse_timestamp` immediately calls `.endswith`
on it, so a non-string raises `AttributeError` (uncaught). -/
def asTimestampStr : Json → Except PyErr String
  | .str s => .ok s
  | _ => .error (.attributeError "endswith")

def required_fields : List String :=
  ["@timestamp", "status", "url", "request_method", "response_time", "http_user_agent"]

/-- Lines 119–121: raise `KeyError` on the first missing required field. -/
def checkFields (j : Json) : List String → Except PyErr Unit
  | [] => .ok ()
  | f :: rest => do
    let b ← pyContains j f
    if b then checkFields j rest else .error (.keyError f)

/-- `LogAnalyzer._create_log_entry` (lines 115–130): field presence check,
then the `LogEntry(...)` call with its argument coercions, evaluated in the
Python order (timestamp fetched first, `int(status)`, then the remaining
fields, with `_parse_timestamp` running inside `__init__`). -/
def create_log_entry (log_data : Json) : Except PyErr LogEntry := do
  checkFields log_data required_fields
  let tsv ← pyGetItem log_data "@timestamp"
  let status ← pyInt (← pyGetItem log_data "status")
  let url ← asStr (← pyGetItem log_data "url")
  let request_method ← asStr (← pyGetItem log_data "request_method")
  let response_time ← pyFloat (← pyGetItem log_data "response_time")
  let http_user_agent ← asStr (← pyGetItem log_data "http_user_agent")
  let tsStr ← asTimestampStr tsv
  LogEntry.make tsStr status url request_method response_time http_user_agent

/-! ## Ingestion pipeline (`LogAnalyzer.load_log_file`, lines 88–113) -/

/-- One emitted diagnostic: `Warning: Skipping invalid log line {line_num} in
{file_path}: {e}`. -/
structure Warning where
  line_num : ℕ
  path : String
  err : PyErr
deriving DecidableEq

/-- A file handed to `load_log_file`: either its lines, or the `IOError`
message produced when opening/reading it fails. -/
structure PFile where
  path : String
  content : Except String (List String)

/-- The per-line `except (json.JSONDecodeError, KeyError, ValueError)`
clause on line 108. -/
def isCaught : PyErr → Bool
  | .jsonDecodeError => true
  | .keyError _ => true
  | .valueError _ => true
  | _ => false

/-- Lines 96–106: parse one (already stripped, non-empty) line as JSON, build
the record, and apply the optional date filter; `.ok none` is a silent drop by
the filter, `.error` a raised exception. -/
def processLine (jload : String → Option Json) (line : String)
    (filter_date : Option Datetime) : Except PyErr (Option LogEntry) :=
  match jload line with
  | none => .error .jsonDecodeError
  | some j =>
    match create_log_entry j with
    | .error e => .error e
    | .ok entry =>
      match filter_date with
      | some fd => if entry.timestamp.date = fd.date then .ok (some entry) else .ok none
      | none => .ok (some entry)

/-- The `for line_num, line in enumerate(f, 1)` loop (lines 91–110). -/
def processLines (jload : String → Option Json) (path : String)
    (filter_date : Option Datetime) :
    List String → ℕ → List LogEntry → List Warning →
    Except PyErr (List LogEntry × List Warning)
  | [], _, store, ws => .ok (store, ws)
  | line :: rest, n, store, ws =>
    if line.trim = "" then processLines jload path filter_date rest (n + 1) store ws
    else
      match processLine jload line.trim filter_date with
      | .ok (some e) => processLines jload path filter_date rest (n + 1) (store ++ [e]) ws
      | .ok none => processLines jload path filter_date rest (n + 1) store ws
      | .error err =>
        if isCaught err then
          processLines jload path filter_date rest (n + 1) store (ws ++ [⟨n, path, err⟩])
        else .error err

/-- `LogAnalyzer.load_log_file`: an open/read failure is re-raised as
`Exception(f"Failed to read file {file_path}: {e}")` (lines 112–113);
otherwise the line loop runs against the current store. -/
def load_log_file (jload : String → Option Json) (file : PFile)
    (filter_date : Option Datetime) (store : List LogEntry) :
    Except PyErr (List LogEntry × List Warning) :=
  match file.content with
  | .error e => .error (.exception ("Failed to read file " ++ file.path ++ ": " ++ e))
  | .ok lines => processLines jload file.path filter_date lines 1 store []

/-! ## `get_log_entries` under an explicit heap

Python lists are mutable objects; to state the copy/frame property of
`get_log_entries` (line 133, `return self._log_entries.copy()`) the mutable
store is modelled by a heap of list objects addressed by index.  The analyzer
holds a reference to its `_log_entries` object; `get_log_entries` allocates a
fresh object with the same elements and returns its reference. -/

abbrev Heap : Type := List (List LogEntry)

structure AnalyzerRef where
  ref : ℕ

def Heap.read (h : Heap) (r : ℕ) : List LogEntry := List.getD h r []

/-- Mutation of the list object at reference `r` (e.g. `lst.append(...)`,
`lst.clear()`, arbitrary in-place rewriting). -/
def Heap.write (h : Heap) (r : ℕ) (v : List LogEntry) : Heap := List.set h r v

/-- `LogAnalyzer.get_log_entries`: allocate a copy, return its reference. -/
def get_log_entries (h : Heap) (a : AnalyzerRef) : Heap × ℕ :=
  (h ++ [h.read a.ref], List.length h)

/-! ## Aggregation engine (`AverageReportGenerator.generate`, lines 55–80) -/

/-- The per-endpoint accumulator (`{'total_time': …, 'count': …}`). -/
structure Stat where
  total_time : ℚ
  count : ℕ
deriving DecidableEq

/-- One value of the final report mapping
(`{'count': …, 'avg_response_time': …}`). -/
structure ReportEntry where
  count : ℕ
  avg_response_time : ℚ
deriving DecidableEq

/-- First-match association lookup (dict key access on an insertion-ordered
association list). -/
def alookup {α : Type} (ep : String) : List (String × α) → Option α
  | [] => none
  | (k, v) :: t => if k = ep then some v else alookup ep t

/-- Lines 61–68 acting on the insertion-ordered dict `endpoint_stats`: a
present key keeps its position and its accumulator receives `(+= rt, += 1)`;
an absent key (`endpoint not in endpoint_stats`) is appended at the end with
`⟨rt, 1⟩` — exactly a Python dict's update/insert semantics. -/
def upsert : List (String × Stat) → String → ℚ → List (String × Stat)
  | [], ep, rt => [(ep, ⟨rt, 1⟩)]
  | (k, v) :: t, ep, rt =>
      if k = ep then (k, ⟨v.total_time + rt, v.count + 1⟩) :: t
      else (k, v) :: upsert t ep rt

/-- The accumulation loop over `log_entries` (lines 58–68). -/
def accumStats (entries : List LogEntry) : List (String × Stat) :=
  entries.foldl (fun m e => upsert m (get_endpoint e) e.response_time) []

/-- Line 73–76: `{'count': count, 'avg_response_time': total_time / count}`. -/
def statToReport (st : Stat) : ReportEntry := ⟨st.count, st.total_time / (st.count : ℚ)⟩

/-- Lines 71–76: convert each accumulator to count and average. -/
def result_of (entries : List LogEntry) : List (String × ReportEntry) :=
  (accumStats entries).map (fun p => (p.1, statToReport p.2))

/-- The sort key comparison of line 80, `key=lambda x: (-count, avg)`:
`a` may come no later than `b` iff `a`'s key tuple is ≤ `b`'s lexicographically. -/
def keyLe (a b : String × ReportEntry) : Prop :=
  b.2.count < a.2.count ∨
    (a.2.count = b.2.count ∧ a.2.avg_response_time ≤ b.2.avg_response_time)

instance : DecidableRel keyLe := fun _ _ =>
  inferInstanceAs (Decidable (_ ∨ _))

instance : IsTotal (String × ReportEntry) keyLe :=
  ⟨fun a b => by
    unfold keyLe
    rcases Nat.lt_trichotomy a.2.count b.2.count with h | h | h
    · exact Or.inr (Or.inl h)
    · rcases le_total a.2.avg_response_time b.2.avg_response_time with h2 | h2
      · exact Or.inl (Or.inr ⟨h, h2⟩)
      · exact Or.inr (Or.inr ⟨h.symm, h2⟩)
    · exact Or.inl (Or.inl h)⟩

instance : IsTrans (String × ReportEntry) keyLe :=
  ⟨fun a b c hab hbc => by
    unfold keyLe at *
    rcases hab with h1 | ⟨h1, h1'⟩ <;> rcases hbc with h2 | ⟨h2, h2'⟩
    · exact Or.inl (h2.trans h1)
    · exact Or.inl (h2 ▸ h1)
    · exact Or.inl (h1 ▸ h2)
    · exact Or.inr ⟨h1.trans h2, h1'.trans h2'⟩⟩

/-- `sorted(result.items(), key=lambda x: (-count, avg))` on lines 79–80:
Python's `sorted` is the (extensionally unique) stable sort by the key
comparison, realized here by Mathlib's stable `insertionSort`. -/
def generate (entries : List LogEntry) : List (String × ReportEntry) :=
  List.insertionSort keyLe (result_of entries)

/-! ## Observation helpers (not part of the source; used to state claims) -/

/-- Index of the first occurrence of a key. -/
def idxOf (a : String) : List String → ℕ
  | [] => 0
  | b :: t => if a = b then 0 else idxOf a t + 1

/-- Position of endpoint `A` in a report (its rank in insertion order). -/
def posIn (l : List (String × ReportEntry)) (A : String) : ℕ :=
  idxOf A (l.map Prod.fst)

/-- The number of input records whose canonical endpoint is `E`. -/
def epCount (entries : List LogEntry) (E : String) : ℕ :=
  (entries.filter (fun e => get_endpoint e == E)).length

/-- The sum of the response times of records with canonical endpoint `E`. -/
def epSum (entries : List LogEntry) (E : String) : ℚ :=
  ((entries.filter (fun e => get_endpoint e == E)).map LogEntry.response_time).sum

/-- `true` iff the character list contains a `/` immediately followed by an
ASCII digit, i.e. iff the regex `/\d+` has a match. -/
def hasSlashDigit : List Char → Bool
  | a :: b :: t => (a == '/' && b.isDigit) || hasSlashDigit (b :: t)
  | _ => false

/-! ## Concrete fixtures used by witnesses and counterexamples -/

/-- `datetime(2025, 6, 22)` (the date-filter value in the repository tests). -/
def dtJun22 : Datetime := ⟨2025, 6, 22, 0, 0, 0, 0, none⟩

/-- The result of parsing `2025-06-22T13:57:32+00:00`. -/
def tsJun22utc : Datetime := ⟨2025, 6, 22, 13, 57, 32, 0, some 0⟩

def entryA : LogEntry := ⟨dtJun22, 200, "/a", "GET", 1, "ua"⟩

def entryB : LogEntry := ⟨dtJun22, 200, "/b", "GET", 1, "ua"⟩

/-- Two records with distinct endpoints but identical count and average. -/
def entriesC2 : List LogEntry := [entryA, entryB]

def entrySlow : LogEntry := ⟨dtJun22, 200, "/api/slow", "GET", 1/2, "A"⟩

def entryFast1 : LogEntry := ⟨dtJun22, 200, "/api/fast", "GET", 1/10, "A"⟩

def entryFast2 : LogEntry := ⟨dtJun22, 200, "/api/fast", "GET", 1/10, "A"⟩

/-- The sorting fixture of `test_generate_sorting`. -/
def entriesW : List LogEntry := [entrySlow, entryFast1, entryFast2]

def entryC4 : LogEntry := ⟨dtJun22, 200, "/api/v2/item42", "GET", 1, "ua"⟩

/-- A well-formed JSON line except that `status` is JSON `null`:
`int(None)` raises `TypeError`. -/
def objC6 : Json := .obj [("@timestamp", .str "2025-06-22T13:57:32Z"), ("status", .null),
  ("url", .str "/a"), ("request_method", .str "GET"), ("response_time", .float (1/10)),
  ("http_user_agent", .str "ua")]

def lineC6 : String :=
  "\x7b\"@timestamp\": \"2025-06-22T13:57:32Z\", \"status\": null, \"url\": \"/a\", \"request_method\": \"GET\", \"response_time\": 0.1, \"http_user_agent\": \"ua\"\x7d"

/-- `json.loads` restricted to the C6 fixture line. -/
def jloadC6 : String → Option Json := fun s => if s = lineC6 then some objC6 else none

def fileC6 : PFile := ⟨"access.log", .ok [lineC6]⟩

def objC8a : Json := .obj [("@timestamp", .str "2025-06-22T13:57:32+00:00"),
  ("status", .int 200), ("url", .str "/api/test1"), ("request_method", .str "GET"),
  ("response_time", .float (3/125)), ("http_user_agent", .str "TestAgent/1.0")]

def objC8b : Json := .obj [("@timestamp", .str "2025-06-23T13:57:33+00:00"),
  ("status", .int 404), ("url", .str "/api/test2"), ("request_method", .str "POST"),
  ("response_time", .float (7/125)), ("http_user_agent", .str "TestAgent/2.0")]

def lineC8a : String :=
  "\x7b\"@timestamp\": \"2025-06-22T13:57:32+00:00\", \"status\": 200, \"url\": \"/api/test1\", \"request_method\": \"GET\", \"response_time\": 0.024, \"http_user_agent\": \"TestAgent/1.0\"\x7d"

def lineC8b : String :=
  "\x7b\"@timestamp\": \"2025-06-23T13:57:33+00:00\", \"status\": 404, \"url\": \"/api/test2\", \"request_method\": \"POST\", \"response_time\": 0.056, \"http_user_agent\": \"TestAgent/2.0\"\x7d"

/-- `json.loads` restricted to the two C8 fixture lines. -/
def jloadC8 : String → Option Json := fun s =>
  if s = lineC8a then some objC8a else if s = lineC8b then some objC8b else none

/-- The date-filter fixture file: one record on 2025-06-22, one on 2025-06-23. -/
def fileC8 : PFile := ⟨"access.log", .ok [lineC8a, lineC8b]⟩

/-- The record built from `lineC8a`. -/
def entryC8 : LogEntry := ⟨tsJun22utc, 200, "/api/test1", "GET", 3/125, "TestAgent/1.0"⟩

/-! ## Lemmas: association lookup and the accumulator -/

theorem alookup_upsert_self (m : List (String × Stat)) (ep : String) (rt : ℚ) :
    alookup ep (upsert m ep rt) =
      some (match alookup ep m with
            | some st => ⟨st.total_time + rt, st.count + 1⟩
            | none => ⟨rt, 1⟩) := by
  induction m with
  | nil => simp [alookup, upsert]
  | cons p t ih =>
    rcases p with ⟨k, v⟩
    by_cases h : k = ep
    · simp [upsert, alookup, h]
    · simp [upsert, alookup, h, ih]

theorem alookup_upsert_ne (m : List (String × Stat)) (ep ep' : String) (rt : ℚ)
    (h : ep' ≠ ep) : alookup ep' (upsert m ep rt) = alookup ep' m := by
  induction m with
  | nil => simp [alookup, upsert, Ne.symm h]
  | cons p t ih =>
    rcases p with ⟨k, v⟩
    by_cases hk : k = ep
    · subst hk
      simp [upsert, alookup, Ne.symm h]
    · by_cases hk' : k = ep'
      · subst hk'
        simp [upsert, alookup, hk]
      · simp [upsert, alookup, hk, hk', ih]

theorem mem_keys_iff_alookup {α : Type} (l : List (String × α)) (ep : String) :
    ep ∈ l.map Prod.fst ↔ (alookup ep l).isSome := by
  induction l with
  | nil => simp [alookup]
  | cons p t ih =>
    rcases p with ⟨k, v⟩
    by_cases h : k = ep
    · simp [alookup, h]
    · simp [alookup, h, Ne.symm h, ih]

theorem mem_iff_alookup {α : Type} (l : List (String × α)) (ep : String) (v : α)
    (hnd : (l.map Prod.fst).Nodup) : (ep, v) ∈ l ↔ alookup ep l = some v := by
  induction l with
  | nil => simp [alookup]
  | cons p t ih =>
    rcases p with ⟨k, w⟩
    simp only [List.map_cons, List.nodup_cons] at hnd
    by_cases h : k = ep
    · subst h
      constructor
      · intro hmem
        rcases List.mem_cons.mp hmem with heq | hmem2
        · obtain ⟨-, hv⟩ := Prod.mk.inj heq
          subst hv
          simp [alookup]
        · exact absurd (List.mem_map_of_mem Prod.fst hmem2) hnd.1
      · intro heq
        have hv : w = v := by simpa [alookup] using heq
        subst hv
        exact List.mem_cons_self _ _
    · simp only [alookup, if_neg h, List.mem_cons]
      rw [← ih hnd.2]
      constructor
      · rintro (heq | hmem)
        · exact absurd (Prod.mk.inj heq).1.symm h
        · exact hmem
      · exact Or.inr

theorem alookup_map_val {α β : Type} (m : List (String × α)) (f : α → β) (ep : String) :
    alookup ep (m.map (fun p => (p.1, f p.2))) = (alookup ep m).map f := by
  induction m with
  | nil => rfl
  | cons p t ih =>
    rcases p with ⟨k, v⟩
    by_cases h : k = ep <;> simp [alookup, h, ih]

theorem keys_map_val {α β : Type} (m : List (String × α)) (f : α → β) :
    (m.map (fun p => (p.1, f p.2))).map Prod.fst = m.map Prod.fst := by
  induction m with
  | nil => rfl
  | cons p t ih => simp [ih]

theorem keys_upsert (m : List (String × Stat)) (ep : String) (rt : ℚ) :
    (upsert m ep rt).map Prod.fst =
      if (alookup ep m).isSome then m.map Prod.fst else m.map Prod.fst ++ [ep] := by
  induction m with
  | nil => simp [alookup, upsert]
  | cons p t ih =>
    rcases p with ⟨k, v⟩
    by_cases h : k = ep
    · simp [upsert, alookup, h]
    · simp only [upsert, if_neg h, List.map_cons, alookup]
      rw [ih]
      by_cases hs : (alookup ep t).isSome <;> simp [hs]

theorem nodup_keys_upsert (m : List (String × Stat)) (ep : String) (rt : ℚ)
    (hnd : (m.map Prod.fst).Nodup) : ((upsert m ep rt).map Prod.fst).Nodup := by
  rw [keys_upsert]
  by_cases h : (alookup ep m).isSome
  · rw [if_pos h]
    exact hnd
  · rw [if_neg h]
    have hnm : ep ∉ m.map Prod.fst := fun hc => h ((mem_keys_iff_alookup m ep).mp hc)
    rw [List.nodup_append]
    refine ⟨hnd, List.nodup_singleton ep, ?_⟩
    intro a ha hb
    simp only [List.mem_singleton] at hb
    subst hb
    exact hnm ha

theorem epCount_cons (e : LogEntry) (l : List LogEntry) (ep : String) :
    epCount (e :: l) ep = (if get_endpoint e = ep then 1 else 0) + epCount l ep := by
  simp only [epCount, List.filter_cons]
  by_cases h : get_endpoint e = ep
  · simp [h, Nat.add_comm]
  · simp [h]

theorem epSum_cons (e : LogEntry) (l : List LogEntry) (ep : String) :
    epSum (e :: l) ep = (if get_endpoint e = ep then e.response_time else 0) + epSum l ep := by
  simp only [epSum, List.filter_cons]
  by_cases h : get_endpoint e = ep
  · simp [h]
  · simp [h]

theorem accumLoop_alookup (l : List LogEntry) :
    ∀ (acc : List (String × Stat)) (ep : String),
      alookup ep (l.foldl (fun m e => upsert m (get_endpoint e) e.response_time) acc) =
        match alookup ep acc with
        | some st => some ⟨st.total_time + epSum l ep, st.count + epCount l ep⟩
        | none => if 0 < epCount l ep then some ⟨epSum l ep, epCount l ep⟩ else none := by
  induction l with
  | nil =>
    intro acc ep
    rcases h : alookup ep acc with _ | st
    · simp [h, epCount]
    · simp [h, epSum, epCount]
  | cons e l ih =>
    intro acc ep
    rw [List.foldl_cons, ih]
    by_cases hep : ep = get_endpoint e
    · rw [← hep, alookup_upsert_self, epSum_cons, epCount_cons,
        if_pos hep.symm, if_pos hep.symm]
      rcases h : alookup ep acc with _ | st
      · simp only [h]
        rw [if_pos (show 0 < 1 + epCount l ep by omega)]
      · simp only [h]
        simp [add_assoc]
    · rw [alookup_upsert_ne _ _ _ _ hep, epSum_cons, epCount_cons,
        if_neg (Ne.symm hep), if_neg (Ne.symm hep)]
      simp

theorem alookup_accumStats (entries : List LogEntry) (ep : String) :
    alookup ep (accumStats entries) =
      if 0 < epCount entries ep then some ⟨epSum entries ep, epCount entries ep⟩
      else none := by
  unfold accumStats
  rw [accumLoop_alookup]
  rfl

theorem nodup_keys_accumStats (entries : List LogEntry) :
    ((accumStats entries).map Prod.fst).Nodup := by
  unfold accumStats
  generalize hacc : ([] : List (String × Stat)) = acc
  have hnd : (acc.map Prod.fst).Nodup := by rw [← hacc]; exact List.nodup_nil
  clear hacc
  induction entries generalizing acc with
  | nil => exact hnd
  | cons e l ih =>
    rw [List.foldl_cons]
    exact ih _ (nodup_keys_upsert _ _ _ hnd)

/-! ## Lemmas: the pre-sort report and the sorted report -/

theorem alookup_result_of (entries : List LogEntry) (ep : String) :
    alookup ep (result_of entries) =
      if 0 < epCount entries ep then
        some ⟨epCount entries ep, epSum entries ep / (epCount entries ep : ℚ)⟩
      else none := by
  unfold result_of
  rw [alookup_map_val, alookup_accumStats]
  by_cases h : 0 < epCount entries ep <;> simp [h, statToReport]

theorem nodup_keys_result_of (entries : List LogEntry) :
    ((result_of entries).map Prod.fst).Nodup := by
  unfold result_of
  rw [keys_map_val]
  exact nodup_keys_accumStats entries

theorem generate_perm (entries : List LogEntry) :
    List.Perm (generate entries) (result_of entries) :=
  List.perm_insertionSort keyLe (result_of entries)

theorem nodup_keys_generate (entries : List LogEntry) :
    ((generate entries).map Prod.fst).Nodup :=
  ((generate_perm entries).map Prod.fst).nodup_iff.mpr (nodup_keys_result_of entries)

theorem mem_generate_iff (entries : List LogEntry) (p : String × ReportEntry) :
    p ∈ generate entries ↔ p ∈ result_of entries :=
  (generate_perm entries).mem_iff

theorem sorted_generate (entries : List LogEntry) :
    List.Sorted keyLe (generate entries) :=
  List.sorted_insertionSort keyLe (result_of entries)

theorem alookup_generate (entries : List LogEntry) (ep : String) (r : ReportEntry) :
    alookup ep (generate entries) = some r ↔ alookup ep (result_of entries) = some r := by
  rw [← mem_iff_alookup _ _ _ (nodup_keys_generate entries),
    ← mem_iff_alookup _ _ _ (nodup_keys_result_of entries)]
  exact mem_generate_iff entries (ep, r)

/-! ## Lemmas: positions in a report and stability of the sort -/

/-- The key tuple of `A` is lexicographically strictly below that of `B`
(`A` must precede `B` in any sort by `key=lambda x: (-count, avg)`). -/
def keyLt (a b : String × ReportEntry) : Prop :=
  b.2.count < a.2.count ∨
    (a.2.count = b.2.count ∧ a.2.avg_response_time < b.2.avg_response_time)

theorem keyLe_iff (a b : String × ReportEntry) :
    keyLe a b ↔ keyLt a b ∨
      (a.2.count = b.2.count ∧ a.2.avg_response_time = b.2.avg_response_time) := by
  unfold keyLe keyLt
  constructor
  · rintro (h | ⟨hc, hv⟩)
    · exact Or.inl (Or.inl h)
    · rcases lt_or_eq_of_le hv with hv' | hv'
      · exact Or.inl (Or.inr ⟨hc, hv'⟩)
      · exact Or.inr ⟨hc, hv'⟩
  · rintro ((h | ⟨hc, hv⟩) | ⟨hc, hv⟩)
    · exact Or.inl h
    · exact Or.inr ⟨hc, le_of_lt hv⟩
    · exact Or.inr ⟨hc, le_of_eq hv⟩

theorem keyLt_keyLe_false (a b : String × ReportEntry)
    (h1 : keyLt a b) (h2 : keyLe b a) : False := by
  unfold keyLt at h1
  unfold keyLe at h2
  rcases h1 with h1 | ⟨h1c, h1v⟩ <;> rcases h2 with h2 | ⟨h2c, h2v⟩
  · omega
  · omega
  · omega
  · exact absurd h1v (not_lt_of_le h2v)

theorem exists_pair_of_mem_keys {α : Type} (l : List (String × α)) (A : String)
    (hA : A ∈ l.map Prod.fst) : ∃ ra, (A, ra) ∈ l := by
  rcases List.mem_map.mp hA with ⟨p, hp, hpA⟩
  exact ⟨p.2, by rw [← hpA]; exact hp⟩

theorem alookup_eq_of_mem {α : Type} (l : List (String × α)) (ep : String) (v w : α)
    (hnd : (l.map Prod.fst).Nodup) (hm : (ep, v) ∈ l) (ha : alookup ep l = some w) :
    v = w := by
  have hv := (mem_iff_alookup l ep v hnd).mp hm
  rw [ha] at hv
  exact Option.some.inj hv.symm

theorem posIn_ne (l : List (String × ReportEntry)) (A B : String)
    (hA : A ∈ l.map Prod.fst) (hB : B ∈ l.map Prod.fst) (hAB : A ≠ B) :
    posIn l A ≠ posIn l B := by
  induction l with
  | nil => simp at hA
  | cons p t ih =>
    rcases p with ⟨k, r⟩
    simp only [List.map_cons, List.mem_cons] at hA hB
    by_cases hAk : A = k
    · have hBk : ¬B = k := fun hc => hAB (hAk.trans hc.symm)
      simp [posIn, idxOf, hAk, hBk]
    · by_cases hBk : B = k
      · simp [posIn, idxOf, hAk, hBk]
      · have hA' : A ∈ t.map Prod.fst := hA.resolve_left hAk
        have hB' : B ∈ t.map Prod.fst := hB.resolve_left hBk
        have := ih hA' hB'
        simp only [posIn, List.map_cons, idxOf, if_neg hAk, if_neg hBk]
        simpa [posIn] using this

theorem posIn_lt_iff_pair (l : List (String × ReportEntry))
    (hnd : (l.map Prod.fst).Nodup) (A B : String)
    (hA : A ∈ l.map Prod.fst) (hB : B ∈ l.map Prod.fst) (hAB : A ≠ B) :
    posIn l A < posIn l B ↔ ∃ ra rb, List.Sublist [(A, ra), (B, rb)] l := by
  induction l with
  | nil => simp at hA
  | cons p t ih =>
    rcases p with ⟨k, r⟩
    simp only [List.map_cons, List.mem_cons] at hA hB
    simp only [List.map_cons, List.nodup_cons] at hnd
    by_cases hAk : A = k
    · subst hAk
      have hBk : ¬B = A := fun hc => hAB hc.symm
      have hB' : B ∈ t.map Prod.fst := hB.resolve_left hBk
      obtain ⟨rb, hrb⟩ := exists_pair_of_mem_keys t B hB'
      constructor
      · intro _
        exact ⟨r, rb, List.Sublist.cons₂ (A, r) (List.singleton_sublist.mpr hrb)⟩
      · intro _
        simp [posIn, idxOf, hBk]
    · by_cases hBk : B = k
      · subst hBk
        constructor
        · intro hpos
          exfalso
          simp [posIn, idxOf, hAk] at hpos
        · rintro ⟨ra, rb, hsub⟩
          exfalso
          cases hsub with
          | cons _ h =>
            have : (B, rb) ∈ t := (List.Sublist.subset h) (by simp)
            exact hnd.1 (List.mem_map_of_mem Prod.fst this)
          | cons₂ _ h => exact hAk rfl
      · have hA' : A ∈ t.map Prod.fst := hA.resolve_left hAk
        have hB' : B ∈ t.map Prod.fst := hB.resolve_left hBk
        have hiff := ih hnd.2 hA' hB'
        have hpos : posIn ((k, r) :: t) A < posIn ((k, r) :: t) B ↔ posIn t A < posIn t B := by
          simp [posIn, idxOf, hAk, hBk]
        rw [hpos, hiff]
        constructor
        · rintro ⟨ra, rb, hsub⟩
          exact ⟨ra, rb, List.Sublist.cons (k, r) hsub⟩
        · rintro ⟨ra, rb, hsub⟩
          cases hsub with
          | cons _ h => exact ⟨ra, rb, h⟩
          | cons₂ _ h => exact absurd rfl hAk

theorem generate_def (entries : List LogEntry) :
    generate entries = List.insertionSort keyLe (result_of entries) := rfl

theorem sorted_pair_keyLe (entries : List LogEntry) (a b : String × ReportEntry)
    (h : List.Sublist [a, b] (generate entries)) : keyLe a b := by
  have hp : List.Pairwise keyLe [a, b] :=
    List.Pairwise.sublist h (sorted_generate entries)
  exact (List.pairwise_cons.mp hp).1 b (List.mem_singleton_self b)

/-- The full characterization of precedence in the sorted report: strictly
smaller key tuple, or equal key tuples and earlier position in the pre-sort
(first-encounter) order. -/
theorem generate_posIn_iff (entries : List LogEntry) (A B : String)
    (ra rb : ReportEntry)
    (hA : alookup A (result_of entries) = some ra)
    (hB : alookup B (result_of entries) = some rb) (hAB : A ≠ B) :
    posIn (generate entries) A < posIn (generate entries) B ↔
      (keyLt (A, ra) (B, rb) ∨
        (ra.count = rb.count ∧ ra.avg_response_time = rb.avg_response_time ∧
          posIn (result_of entries) A < posIn (result_of entries) B)) := by
  have hndl := nodup_keys_result_of entries
  have hnds := nodup_keys_generate entries
  have hmAl : (A, ra) ∈ result_of entries := (mem_iff_alookup _ _ _ hndl).mpr hA
  have hmBl : (B, rb) ∈ result_of entries := (mem_iff_alookup _ _ _ hndl).mpr hB
  have hmAs : (A, ra) ∈ generate entries := (mem_generate_iff entries _).mpr hmAl
  have hmBs : (B, rb) ∈ generate entries := (mem_generate_iff entries _).mpr hmBl
  have hAl : A ∈ (result_of entries).map Prod.fst := List.mem_map_of_mem Prod.fst hmAl
  have hBl : B ∈ (result_of entries).map Prod.fst := List.mem_map_of_mem Prod.fst hmBl
  have hAs : A ∈ (generate entries).map Prod.fst := List.mem_map_of_mem Prod.fst hmAs
  have hBs : B ∈ (generate entries).map Prod.fst := List.mem_map_of_mem Prod.fst hmBs
  have hAg : alookup A (generate entries) = some ra := (alookup_generate entries A ra).mpr hA
  have hBg : alookup B (generate entries) = some rb := (alookup_generate entries B rb).mpr hB
  constructor
  · intro hpos
    obtain ⟨ra', rb', hsub⟩ :=
      (posIn_lt_iff_pair (generate entries) hnds A B hAs hBs hAB).mp hpos
    have hra : ra' = ra := alookup_eq_of_mem _ _ _ _ hnds
      (hsub.subset (by simp)) hAg
    have hrb : rb' = rb := alookup_eq_of_mem _ _ _ _ hnds
      (hsub.subset (by simp)) hBg
    subst hra hrb
    have hkey : keyLe (A, ra') (B, rb') := sorted_pair_keyLe entries _ _ hsub
    rcases (keyLe_iff _ _).mp hkey with hlt | ⟨hc, hv⟩
    · exact Or.inl hlt
    · refine Or.inr ⟨hc, hv, ?_⟩
      by_contra hneg
      have hBA : posIn (result_of entries) B < posIn (result_of entries) A := by
        have := posIn_ne (result_of entries) A B hAl hBl hAB
        omega
      obtain ⟨rb2, ra2, hsub2⟩ :=
        (posIn_lt_iff_pair (result_of entries) hndl B A hBl hAl hAB.symm).mp hBA
      have hrb2 : rb2 = rb' := alookup_eq_of_mem _ _ _ _ hndl
        (hsub2.subset (by simp)) hB
      have hra2 : ra2 = ra' := alookup_eq_of_mem _ _ _ _ hndl
        (hsub2.subset (by simp)) hA
      subst hrb2 hra2
      have hkeyBA : keyLe (B, rb2) (A, ra2) := by
        rw [keyLe_iff]
        exact Or.inr ⟨hc.symm, hv.symm⟩
      have hsubs : List.Sublist [(B, rb2), (A, ra2)] (generate entries) := by
        rw [generate_def]
        exact List.pair_sublist_insertionSort hkeyBA hsub2
      have : posIn (generate entries) B < posIn (generate entries) A :=
        (posIn_lt_iff_pair (generate entries) hnds B A hBs hAs hAB.symm).mpr
          ⟨rb2, ra2, hsubs⟩
      omega
  · rintro (hlt | ⟨hc, hv, hposl⟩)
    · by_contra hneg
      have hBA : posIn (generate entries) B < posIn (generate entries) A := by
        have := posIn_ne (generate entries) A B hAs hBs hAB
        omega
      obtain ⟨rb2, ra2, hsub2⟩ :=
        (posIn_lt_iff_pair (generate entries) hnds B A hBs hAs hAB.symm).mp hBA
      have hrb2 : rb2 = rb := alookup_eq_of_mem _ _ _ _ hnds
        (hsub2.subset (by simp)) hBg
      have hra2 : ra2 = ra := alookup_eq_of_mem _ _ _ _ hnds
        (hsub2.subset (by simp)) hAg
      subst hrb2 hra2
      have hkeyBA : keyLe (B, rb2) (A, ra2) := sorted_pair_keyLe entries _ _ hsub2
      exact keyLt_keyLe_false _ _ hlt hkeyBA
    · obtain ⟨ra2, rb2, hsubl⟩ :=
        (posIn_lt_iff_pair (result_of entries) hndl A B hAl hBl hAB).mp hposl
      have hra2 : ra2 = ra := alookup_eq_of_mem _ _ _ _ hndl
        (hsubl.subset (by simp)) hA
      have hrb2 : rb2 = rb := alookup_eq_of_mem _ _ _ _ hndl
        (hsubl.subset (by simp)) hB
      subst hra2 hrb2
      have hkeyAB : keyLe (A, ra2) (B, rb2) := by
        rw [keyLe_iff]
        exact Or.inr ⟨hc, hv⟩
      have hsubs : List.Sublist [(A, ra2), (B, rb2)] (generate entries) := by
        rw [generate_def]
        exact List.pair_sublist_insertionSort hkeyAB hsubl
      exact (posIn_lt_iff_pair (generate entries) hnds A B hAs hBs hAB).mpr
        ⟨ra2, rb2, hsubs⟩

/-! ## Lemmas: the digit-run replacement -/

theorem slash_isDigit : ('/').isDigit = false := rfl

theorem dot_isDigit : ('.').isDigit = false := rfl

theorem dot_beq_slash : (('.') == '/') = false := rfl

theorem hasSlashDigit_cons (a : Char) (l : List Char) :
    hasSlashDigit (a :: l) = (((a == '/') && headIsDigit l) || hasSlashDigit l) := by
  cases l with
  | nil => simp [hasSlashDigit, headIsDigit]
  | cons b t => rfl

theorem headIsDigit_reSubGo (t : List Char) :
    headIsDigit (reSubGo false t) = true → headIsDigit t = true := by
  cases t with
  | nil => intro h; exact absurd h (by simp [reSubGo, headIsDigit])
  | cons c rest =>
    intro h
    by_cases h2 : (c == '/' && headIsDigit rest) = true
    · rw [show reSubGo false (c :: rest) = '/' :: '.' :: '.' :: '.' :: reSubGo true rest from by
        simp [reSubGo, h2]] at h
      simp [headIsDigit, slash_isDigit] at h
    · rw [show reSubGo false (c :: rest) = c :: reSubGo false rest from by
        simp [reSubGo, h2]] at h
      exact h

theorem hasSlashDigit_reSubGo_eq_false :
    ∀ (t : List Char) (flag : Bool), hasSlashDigit (reSubGo flag t) = false := by
  intro t
  induction t with
  | nil => intro flag; rfl
  | cons c rest ih =>
    intro flag
    by_cases h1 : (flag && c.isDigit) = true
    · rw [show reSubGo flag (c :: rest) = reSubGo true rest from by simp [reSubGo, h1]]
      exact ih true
    · by_cases h2 : (c == '/' && headIsDigit rest) = true
      · rw [show reSubGo flag (c :: rest) = '/' :: '.' :: '.' :: '.' :: reSubGo true rest from by
          simp [reSubGo, h1, h2]]
        rw [hasSlashDigit_cons, hasSlashDigit_cons, hasSlashDigit_cons, hasSlashDigit_cons]
        simp [headIsDigit, dot_isDigit, dot_beq_slash, ih true]
      · rw [show reSubGo flag (c :: rest) = c :: reSubGo false rest from by
          simp [reSubGo, h1, h2]]
        rw [hasSlashDigit_cons, ih false]
        simp only [Bool.or_false]
        by_cases hc : (c == '/') = true
        · have hrest : headIsDigit rest = false := by
            cases hh : headIsDigit rest with
            | false => rfl
            | true => exact absurd (by rw [hc, hh]; rfl) h2
          have hout : headIsDigit (reSubGo false rest) = false := by
            cases hh : headIsDigit (reSubGo false rest) with
            | false => rfl
            | true => exact absurd (headIsDigit_reSubGo rest hh) (by simp [hrest])
          simp [hc, hout]
        · have : (c == '/') = false := by
            cases hcb : (c == '/') with
            | false => rfl
            | true => exact absurd hcb hc
          simp [this]

theorem reSubGo_id (t : List Char) (h : hasSlashDigit t = false) :
    reSubGo false t = t := by
  induction t with
  | nil => rfl
  | cons c rest ih =>
    rw [hasSlashDigit_cons] at h
    have h1 : ((c == '/') && headIsDigit rest) = false := by
      cases hcb : ((c == '/') && headIsDigit rest) with
      | false => rfl
      | true => rw [hcb] at h; simp at h
    have h2 : hasSlashDigit rest = false := by
      cases hcb : hasSlashDigit rest with
      | false => rfl
      | true => rw [hcb] at h; simp at h
    rw [show reSubGo false (c :: rest) = c :: reSubGo false rest from by simp [reSubGo, h1]]
    rw [ih h2]

theorem hasSlashDigit_reSub (l : List Char) :
    hasSlashDigit (reSubSlashDigits l) = false :=
  hasSlashDigit_reSubGo_eq_false l false

theorem reSub_id (l : List Char) (h : hasSlashDigit l = false) :
    reSubSlashDigits l = l :=
  reSubGo_id l h

/-! ## Lemmas: the heap model -/

theorem heap_read_append_self (h : Heap) (x : List LogEntry) :
    Heap.read (h ++ [x]) h.length = x := by
  induction h with
  | nil => rfl
  | cons y t ih =>
    simp only [Heap.read, List.cons_append, List.length_cons, List.getD_cons_succ]
    exact ih

theorem heap_read_append_lt (h : Heap) (x : List LogEntry) (i : ℕ) (hi : i < h.length) :
    Heap.read (h ++ [x]) i = Heap.read h i := by
  induction h generalizing i with
  | nil => exact absurd hi (Nat.not_lt_zero i)
  | cons y t ih =>
    cases i with
    | zero => rfl
    | succ n =>
      simp only [Heap.read, List.cons_append, List.getD_cons_succ]
      exact ih n (by simpa using hi)

theorem heap_write_append (h : Heap) (x v : List LogEntry) :
    Heap.write (h ++ [x]) h.length v = h ++ [v] := by
  induction h with
  | nil => rfl
  | cons y t ih =>
    show y :: Heap.write (t ++ [x]) t.length v = y :: (t ++ [v])
    rw [ih]

/-! ## The claims -/

/-- C1: for every ordered sequence of records, `generate` returns exactly one
entry per distinct canonical endpoint (no duplicate keys; a key is present iff
some record maps to it); for each endpoint the entry's count is the number of
records with that canonical endpoint and its `avg_response_time` is the
arithmetic mean of their response times; the empty sequence yields the empty
mapping. -/
theorem claim_c1 (entries : List LogEntry) :
    ((generate entries).map Prod.fst).Nodup ∧
    (∀ E : String, E ∈ (generate entries).map Prod.fst ↔ 0 < epCount entries E) ∧
    (∀ (E : String) (r : ReportEntry), (E, r) ∈ generate entries →
      r.count = epCount entries E ∧
      r.avg_response_time = epSum entries E / (epCount entries E : ℚ)) ∧
    generate [] = [] := by
  refine ⟨nodup_keys_generate entries, ?_, ?_, rfl⟩
  · intro E
    rw [mem_keys_iff_alookup]
    constructor
    · intro hs
      rcases Option.isSome_iff_exists.mp hs with ⟨r, hr⟩
      rw [alookup_generate, alookup_result_of] at hr
      by_contra hc
      rw [if_neg hc] at hr
      cases hr
    · intro h
      have hsome : alookup E (generate entries) =
          some ⟨epCount entries E, epSum entries E / (epCount entries E : ℚ)⟩ := by
        rw [alookup_generate, alookup_result_of, if_pos h]
      rw [Option.isSome_iff_exists]
      exact ⟨_, hsome⟩
  · intro E r hmem
    have hr := (mem_iff_alookup _ _ _ (nodup_keys_generate entries)).mp hmem
    rw [alookup_generate, alookup_result_of] at hr
    by_cases h : 0 < epCount entries E
    · rw [if_pos h] at hr
      rw [← Option.some.inj hr]
      exact ⟨rfl, rfl⟩
    · rw [if_neg h] at hr
      cases hr

/-- Witness for C1 at a one-record input. -/
theorem claim_c1_witness :
    (⟨1, 1⟩ : ReportEntry).count = epCount [entryA] "/a" ∧
    (⟨1, 1⟩ : ReportEntry).avg_response_time =
      epSum [entryA] "/a" / (epCount [entryA] "/a" : ℚ) :=
  (claim_c1 [entryA]).2.2.1 "/a" ⟨1, 1⟩ (by
    have hg : generate [entryA] = [("/a", ⟨1, 1⟩)] := by with_unfolding_all rfl
    rw [hg]
    exact List.mem_singleton_self _)

/-- C2 as stated is false: with two distinct endpoints of equal count and
equal average, the claimed iff makes each of them precede the other. -/
theorem claim_c2_counterexample :
    ¬ (∀ (A B : String) (ra rb : ReportEntry),
        alookup A (generate entriesC2) = some ra →
        alookup B (generate entriesC2) = some rb → A ≠ B →
        (posIn (generate entriesC2) A < posIn (generate entriesC2) B ↔
          (rb.count < ra.count ∨
            (ra.count = rb.count ∧ ra.avg_response_time ≤ rb.avg_response_time)))) := by
  intro hcl
  have hgen : generate entriesC2 = [("/a", ⟨1, 1⟩), ("/b", ⟨1, 1⟩)] := by
    with_unfolding_all rfl
  have h := hcl "/b" "/a" ⟨1, 1⟩ ⟨1, 1⟩ (by with_unfolding_all rfl)
    (by with_unfolding_all rfl) (by decide)
  have h2 := h.mpr (Or.inr ⟨rfl, le_refl _⟩)
  rw [hgen] at h2
  have e1 : posIn [(("/a" : String), (⟨1, 1⟩ : ReportEntry)), ("/b", ⟨1, 1⟩)] "/b" = 1 := by
    with_unfolding_all rfl
  have e0 : posIn [(("/a" : String), (⟨1, 1⟩ : ReportEntry)), ("/b", ⟨1, 1⟩)] "/a" = 0 := by
    with_unfolding_all rfl
  rw [e1, e0] at h2
  exact absurd h2 (by omega)

/-- C2 amended: for two distinct endpoints of the report, A precedes B iff
A's count is larger, or counts are equal and A's average is strictly smaller,
or both sort keys tie and A precedes B in the pre-sort (first-encounter)
order — the stable-sort tiebreak.  (The original two-key iff holds whenever
the key tuples differ; only the full-tie case is corrected.) -/
theorem claim_c2_amended (entries : List LogEntry) (A B : String)
    (ra rb : ReportEntry)
    (hA : alookup A (generate entries) = some ra)
    (hB : alookup B (generate entries) = some rb) (hAB : A ≠ B) :
    posIn (generate entries) A < posIn (generate entries) B ↔
      (rb.count < ra.count ∨
        (ra.count = rb.count ∧ ra.avg_response_time < rb.avg_response_time) ∨
        (ra.count = rb.count ∧ ra.avg_response_time = rb.avg_response_time ∧
          posIn (result_of entries) A < posIn (result_of entries) B)) := by
  rw [alookup_generate] at hA hB
  rw [generate_posIn_iff entries A B ra rb hA hB hAB]
  constructor
  · rintro (hk | hz)
    · unfold keyLt at hk
      rcases hk with h1 | ⟨h2, h3⟩
      · exact Or.inl h1
      · exact Or.inr (Or.inl ⟨h2, h3⟩)
    · exact Or.inr (Or.inr hz)
  · rintro (h1 | ⟨h2, h3⟩ | hz)
    · exact Or.inl (Or.inl h1)
    · exact Or.inl (Or.inr ⟨h2, h3⟩)
    · exact Or.inr hz

/-- Witness for the amended C2 on the repository's sorting fixture. -/
theorem claim_c2_amended_witness :
    posIn (generate entriesW) "/api/fast" < posIn (generate entriesW) "/api/slow" :=
  (claim_c2_amended entriesW "/api/fast" "/api/slow" ⟨2, 1/10⟩ ⟨1, 1/2⟩
    (by with_unfolding_all rfl) (by with_unfolding_all rfl) (by decide)).mpr
    (Or.inl (by decide))

/-- C3: `get_endpoint` is the pipeline "truncate at the first `?`, drop one
trailing `/` when longer than 1, replace every `/`-preceded maximal ASCII
digit run by `/...`": the replacement leaves no `/`-digit occurrence, leaves
strings without such occurrences unchanged, and the three spec examples
evaluate as stated. -/
theorem claim_c3 :
    (∀ e : LogEntry, get_endpoint e =
        String.mk (reSubSlashDigits (dropTrailingSlash (stripQuery e.url.data)))) ∧
    (∀ l : List Char, hasSlashDigit (reSubSlashDigits l) = false) ∧
    (∀ l : List Char, hasSlashDigit l = false → reSubSlashDigits l = l) ∧
    canonicalOfUrl "/api/users/123/posts/456?x=1" = "/api/users/.../posts/..." ∧
    canonicalOfUrl "/api/users/" = "/api/users" ∧
    canonicalOfUrl "/" = "/" :=
  ⟨fun _ => rfl, fun l => hasSlashDigit_reSub l, fun l h => reSub_id l h,
    by decide, by decide, by decide⟩

/-- Witness for C3's conditional conjunct at a concrete digit-free path. -/
theorem claim_c3_witness :
    hasSlashDigit ('/' :: 'a' :: 'b' :: []) = false ∧
    reSubSlashDigits ('/' :: 'a' :: 'b' :: []) = '/' :: 'a' :: 'b' :: [] :=
  ⟨by decide, claim_c3.2.2.1 ('/' :: 'a' :: 'b' :: []) (by decide)⟩

/-- C4 as stated is false: in `/api/v2/item42` the digit run `42` is preceded
by `m`, not `/`, so `re.sub(r'/\d+', '/...')` does not touch it. -/
theorem claim_c4_counterexample :
    get_endpoint entryC4 ≠ "/api/v2/item..." ∧ get_endpoint entryC4 = "/api/v2/item42" :=
  ⟨by decide, by decide⟩

/-- C4 amended: for a record whose url is `/api/v2/item42`, `get_endpoint`
returns `/api/v2/item42` unchanged (no `/`-preceded digit run exists). -/
theorem claim_c4 : get_endpoint entryC4 = "/api/v2/item42" := by decide

/-- C5: timestamp parsing follows the stated algorithm — a `+00:00` suffix is
replaced by `Z`, else a string containing `+` is truncated at the first `+`
with `Z` appended; the result is parsed as ISO-8601 treating `Z` as UTC,
falling back on failure to the strict `%Y-%m-%dT%H:%M:%S` parse with `Z`
removed, and failing otherwise with a `ValueError` that aborts record
construction; the two example strings parse to the same datetime with date
2025-06-22 and wall-clock 13:57:32. -/
theorem claim_c5 :
    (∀ s : String, parseTimestamp s = parseCoreTs (normalizeTs s.data)) ∧
    (∀ cs : List Char, endsWithPlus0000 cs = true →
      normalizeTs cs = cs.take (cs.length - 6) ++ ['Z']) ∧
    (∀ cs : List Char, endsWithPlus0000 cs = false → cs.contains '+' = true →
      normalizeTs cs = cs.takeWhile (· ≠ '+') ++ ['Z']) ∧
    (∀ cs : List Char, endsWithPlus0000 cs = false → cs.contains '+' = false →
      normalizeTs cs = cs) ∧
    (∀ (cs : List Char) (dt : Datetime),
      fromisoCs (replaceChar 'Z' plus0000 cs) = some dt → parseCoreTs cs = .ok dt) ∧
    (∀ cs : List Char, fromisoCs (replaceChar 'Z' plus0000 cs) = none →
      parseCoreTs cs =
        (match strptimeYmdTHMS (cs.filter (fun c => c ≠ 'Z')) with
         | some dt => .ok dt
         | none => .error (.valueError "time data does not match format"))) ∧
    parseTimestamp "2025-06-22T13:57:32+00:00" = parseTimestamp "2025-06-22T13:57:32Z" ∧
    (∃ dt : Datetime, parseTimestamp "2025-06-22T13:57:32+00:00" = .ok dt ∧
      dt.date = (2025, 6, 22) ∧ dt.hour = 13 ∧ dt.minute = 57 ∧ dt.second = 32) := by
  refine ⟨fun _ => rfl, ?_, ?_, ?_, ?_, ?_, by with_unfolding_all rfl,
    ⟨tsJun22utc, by with_unfolding_all rfl, rfl, rfl, rfl, rfl⟩⟩
  · intro cs h
    unfold normalizeTs
    rw [if_pos h]
  · intro cs h1 h2
    unfold normalizeTs
    rw [if_neg (by rw [h1]; exact Bool.false_ne_true), if_pos h2]
  · intro cs h1 h2
    unfold normalizeTs
    rw [if_neg (by rw [h1]; exact Bool.false_ne_true),
      if_neg (by rw [h2]; exact Bool.false_ne_true)]
  · intro cs dt h
    unfold parseCoreTs
    rw [h]
  · intro cs h
    unfold parseCoreTs
    rw [h]

/-- Witness for C5's conditional conjuncts at the example timestamp. -/
theorem claim_c5_witness :
    endsWithPlus0000 ("2025-06-22T13:57:32+00:00".data) = true ∧
    normalizeTs ("2025-06-22T13:57:32+00:00".data) =
      ("2025-06-22T13:57:32+00:00".data).take
        (("2025-06-22T13:57:32+00:00".data).length - 6) ++ ['Z'] :=
  ⟨by decide, claim_c5.2.1 ("2025-06-22T13:57:32+00:00".data) (by decide)⟩

/-- C6 (code bug): a line whose `status` is JSON `null` makes `int(None)`
raise `TypeError`, which the per-line handler
`except (json.JSONDecodeError, KeyError, ValueError)` does not catch, so the
exception escapes `load_log_file` instead of producing a warning and
continuing. -/
theorem claim_c6_code_bug :
    load_log_file jloadC6 fileC6 none [] =
      .error (.typeError "int() argument must be a string or a real number") := by
  with_unfolding_all rfl

/-- C7: a source that cannot be opened or read aborts the whole load with a
wrapped error whose message names the file path; no per-line warning is
produced (the result is an error, not a store/warning pair). -/
theorem claim_c7 (jload : String → Option Json) (path msg : String)
    (filter_date : Option Datetime) (store : List LogEntry) :
    load_log_file jload ⟨path, .error msg⟩ filter_date store =
      .error (.exception ("Failed to read file " ++ path ++ ": " ++ msg)) := rfl

/-- C8: with a date filter, a well-formed line yields its record exactly when
the calendar date of the normalized timestamp equals the filter's date, and is
silently dropped otherwise (`.ok none`: no warning); concretely, filtering the
two-record fixture (2025-06-22 and 2025-06-23) by 2025-06-22 appends exactly
the first record and emits no warnings. -/
theorem claim_c8 (jload : String → Option Json) (line : String) (fd : Datetime)
    (j : Json) (entry : LogEntry)
    (h1 : jload line = some j) (h2 : create_log_entry j = .ok entry) :
    (processLine jload line (some fd) =
      .ok (if entry.timestamp.date = fd.date then some entry else none)) ∧
    load_log_file jloadC8 fileC8 (some dtJun22) [] = .ok ([entryC8], []) := by
  constructor
  · simp only [processLine, h1, h2]
    by_cases hd : entry.timestamp.date = fd.date <;> simp [hd]
  · with_unfolding_all rfl

/-- Witness for C8 at the fixture's first line. -/
theorem claim_c8_witness :
    (processLine jloadC8 lineC8a (some dtJun22) =
      .ok (if entryC8.timestamp.date = dtJun22.date then some entryC8 else none)) ∧
    load_log_file jloadC8 fileC8 (some dtJun22) [] = .ok ([entryC8], []) :=
  claim_c8 jloadC8 lineC8a dtJun22 objC8a entryC8 (by with_unfolding_all rfl)
    (by with_unfolding_all rfl)

/-- C9: every key present in the accumulator has count ≥ 1 (keys are created
only when a record is processed), so `total_time / count` never divides by
zero. -/
theorem claim_c9 (entries : List LogEntry) (p : String × Stat)
    (hp : p ∈ accumStats entries) :
    1 ≤ p.2.count ∧ ((p.2.count : ℚ) ≠ 0) := by
  rcases p with ⟨ep, st⟩
  have hl := (mem_iff_alookup _ _ _ (nodup_keys_accumStats entries)).mp hp
  rw [alookup_accumStats] at hl
  by_cases h : 0 < epCount entries ep
  · rw [if_pos h] at hl
    rw [← Option.some.inj hl]
    refine ⟨h, ?_⟩
    have : epCount entries ep ≠ 0 := by omega
    exact_mod_cast this
  · rw [if_neg h] at hl
    cases hl

/-- Witness for C9 at a one-record input. -/
theorem claim_c9_witness :
    1 ≤ (⟨1, 1⟩ : Stat).count ∧ (((⟨1, 1⟩ : Stat).count : ℚ) ≠ 0) :=
  claim_c9 [entryA] ("/a", ⟨1, 1⟩) (by
    have hg : accumStats [entryA] = [("/a", ⟨1, 1⟩)] := by with_unfolding_all rfl
    rw [hg]
    exact List.mem_singleton_self _)

/-- C10: `get_log_entries` returns a fresh copy — the returned reference holds
the same element list as the internal store, is a different reference, and any
mutation through it leaves the internal store unchanged, so a subsequent
`get_log_entries` still observes the original records. -/
theorem claim_c10 (h : Heap) (a : AnalyzerRef) (hlt : a.ref < h.length) :
    Heap.read (get_log_entries h a).1 (get_log_entries h a).2 = Heap.read h a.ref ∧
    (get_log_entries h a).2 ≠ a.ref ∧
    (∀ v : List LogEntry,
      Heap.read (Heap.write (get_log_entries h a).1 (get_log_entries h a).2 v) a.ref =
        Heap.read h a.ref) ∧
    (∀ v : List LogEntry,
      Heap.read
        (get_log_entries (Heap.write (get_log_entries h a).1 (get_log_entries h a).2 v) a).1
        (get_log_entries (Heap.write (get_log_entries h a).1 (get_log_entries h a).2 v) a).2 =
      Heap.read h a.ref) := by
  refine ⟨heap_read_append_self h (Heap.read h a.ref), ?_, ?_, ?_⟩
  · show h.length ≠ a.ref
    omega
  · intro v
    show Heap.read (Heap.write (h ++ [Heap.read h a.ref]) h.length v) a.ref = Heap.read h a.ref
    rw [heap_write_append]
    exact heap_read_append_lt h v a.ref hlt
  · intro v
    show Heap.read
        ((Heap.write (h ++ [Heap.read h a.ref]) h.length v) ++
          [Heap.read (Heap.write (h ++ [Heap.read h a.ref]) h.length v) a.ref])
        (Heap.write (h ++ [Heap.read h a.ref]) h.length v).length = Heap.read h a.ref
    rw [heap_write_append, heap_read_append_self]
    exact heap_read_append_lt h v a.ref hlt

/-- Witness for C10 at a one-object heap. -/
theorem claim_c10_witness :
    Heap.read (get_log_entries [[entryA]] ⟨0⟩).1 (get_log_entries [[entryA]] ⟨0⟩).2 =
      Heap.read [[entryA]] 0 ∧
    (get_log_entries [[entryA]] ⟨0⟩).2 ≠ 0 :=
  ⟨(claim_c10 [[entryA]] ⟨0⟩ (by decide)).1, (claim_c10 [[entryA]] ⟨0⟩ (by decide)).2.1⟩

end Workmate
